import Mathlib

/-!
Shallow embedding of `subscription_manager/cert_sorter.py`.

Python dictionaries are embedded as association lists `List (String × β)`
(keys unique in every state the code constructs; insertion order preserved,
as in Python 3.7+ dicts).  Instants (`datetime`) are embedded as integers
(seconds).  Opaque payloads (product certificates, reason objects, the
JSON blobs stored as bucket values) are embedded as `Nat`.
-/

set_option autoImplicit false

namespace CertSorter

/-! ### Constants (strings used for status of products / system, icon codes) -/

def FUTURE_SUBSCRIBED : String := "future_subscribed"

def SUBSCRIBED : String := "subscribed"

def NOT_SUBSCRIBED : String := "not_subscribed"

def EXPIRED : String := "expired"

def PARTIALLY_SUBSCRIBED : String := "partially_subscribed"

def VALID : String := "valid"

def INVALID : String := "invalid"

def PARTIAL : String := "partial"

def DISABLED : String := "disabled"

def UNKNOWN : String := "unknown"

def RHSM_VALID : Nat := 0

def RHSM_EXPIRED : Nat := 1

def RHSM_WARNING : Nat := 2

def RHN_CLASSIC : Nat := 3

def RHSM_PARTIALLY_VALID : Nat := 4

def RHSM_REGISTRATION_REQUIRED : Nat := 5

/-! ### Python dict operations on association lists -/

/-- Keys of a Python dict (`d.keys()`). -/
def dictKeys {β : Type} (d : List (String × β)) : List String :=
  d.map Prod.fst

/-- Key membership test (`k in d` on a Python dict). -/
def dictHas {β : Type} (k : String) (d : List (String × β)) : Bool :=
  (d.map Prod.fst).contains k

/-- Assignment `d[k] = v`: overwrite the entry if the key exists, else append. -/
def dictInsert {β : Type} (k : String) (v : β) : List (String × β) → List (String × β)
  | [] => [(k, v)]
  | (k', v') :: rest =>
    if k' = k then (k, v) :: rest else (k', v') :: dictInsert k v rest

/-- The idiom `d.setdefault(k, []).append(c)`: append `c` to the list stored
under `k`, creating the entry (at the end, per insertion order) if absent. -/
def dictAppendAt {β : Type} (k : String) (c : β) :
    List (String × List β) → List (String × List β)
  | [] => [(k, [c])]
  | (k', vs) :: rest =>
    if k' = k then (k', vs ++ [c]) :: rest else (k', vs) :: dictAppendAt k c rest

/-! ### Data model -/

/-- An entitlement certificate (the fields of `rhsm.certificate2.EntitlementCertificate`
this module consumes).  `validNow` embeds `is_valid()` and `expiring` embeds
`is_expiring()`, both computed by the external certificate library; `products`
is the list of covered product ids; `rangeBegin`/`rangeEnd` embed
`valid_range.begin()`/`valid_range.end()`. -/
structure ECert where
  certId : Nat
  products : List String
  rangeBegin : Int
  rangeEnd : Int
  validNow : Bool
  expiring : Bool
deriving DecidableEq, Repr

/-- The server compliance snapshot (the JSON dict returned by
`EntitlementStatusCache.load_status`).  `status = none` embeds the key
`"status"` being absent (`some ""` embeds present-but-empty);
`reasons = none` embeds the key `"reasons"` being absent. -/
structure ServerStatus where
  compliantProducts : List (String × Nat)
  partiallyCompliantProducts : List (String × Nat)
  partialStacks : List (String × List Nat)
  nonCompliantProducts : List String
  status : Option String
  compliantUntil : Option Int
  reasons : Option (List Nat)
deriving DecidableEq, Repr

/-- Modelled from the spec: `isodate.parse_date` (outside this module) parses
the ISO-8601 timestamp the server sent; instants are embedded as the integers
they denote, so parsing is the identity and applies no offset. -/
def parse_date (t : Int) : Int := t

/-- The collaborators `ComplianceManager.load` consults, embedded as one
record: identity validity, the snapshot the status cache returns (`none` when
the server is unreachable and no cache exists), the Simple Content Access
flag, the product directory (installed-products map and the
`find_by_product` lookup table), the entitlement directory listing, and the
current instant `datetime.now(GMT())`. -/
structure Env where
  registered : Bool
  snapshot : Option ServerStatus
  is_sca : Bool
  installed : List (String × Nat)
  prodDir : List (String × Nat)
  entCerts : List ECert
  now : Int

/-- `product_dir.find_by_product(pid)`: look the product certificate up. -/
def find_by_product (d : List (String × Nat)) (pid : String) : Option Nat :=
  match d with
  | [] => none
  | (k, v) :: rest => if k = pid then some v else find_by_product rest pid

/-- The mutable fields of `ComplianceManager` that make up the derived
compliance view.  `reasons` embeds `self.reasons.reasons` (the `Reasons`
wrapper, outside this module, stores the list it is given). -/
structure CMState where
  installed_products : List (String × Nat)
  unentitled_products : List (String × Nat)
  expired_products : List (String × List ECert)
  partially_valid_products : List (String × Nat)
  valid_products : List (String × Nat)
  partial_stacks : List (String × List Nat)
  future_products : List (String × List ECert)
  reasons : List Nat
  supports_reasons : Bool
  system_status : String
  valid_entitlement_certs : List ECert
  compliant_until : Option Int
deriving DecidableEq, Repr

/-! ### The load pipeline -/

/-- The keys of `unknown_products` in `_scan_entitlement_certs`: installed
products that are neither server-valid nor server-partially-valid. -/
def unknownKeysOf (s : CMState) : List String :=
  (s.installed_products.filter (fun p =>
    !(dictHas p.1 s.valid_products) && !(dictHas p.1 s.partially_valid_products))).map Prod.fst

/-- Body of the inner `for product in ent_cert.products` loop of
`_scan_entitlement_certs`. -/
def scanStepInner (unknownKeys : List String) (now : Int) (cert : ECert)
    (s : CMState) (pid : String) : CMState :=
  if unknownKeys.contains pid then
    if cert.rangeBegin > now then
      { s with future_products := dictAppendAt pid cert s.future_products }
    else if cert.rangeEnd < now then
      { s with expired_products := dictAppendAt pid cert s.expired_products }
    else s
  else s

/-- Body of the outer `for ent_cert in ent_certs` loop of
`_scan_entitlement_certs`. -/
def scanStepCert (unknownKeys : List String) (now : Int)
    (s : CMState) (cert : ECert) : CMState :=
  let s :=
    if cert.validNow then
      { s with valid_entitlement_certs := s.valid_entitlement_certs ++ [cert] }
    else s
  cert.products.foldl (scanStepInner unknownKeys now cert) s

/-- `ComplianceManager._scan_entitlement_certs`. -/
def scan_entitlement_certs (env : Env) (s : CMState) : CMState :=
  env.entCerts.foldl (scanStepCert (unknownKeysOf s) env.now) s

/-- Body of the non-SCA reconciliation loop over the installed product ids:
append `pid` to `unentitled_pids` when the server reported it in neither the
valid nor the partially-valid map and it is not already listed. -/
def unentitledStep (st : ServerStatus) (acc : List String) (pid : String) :
    List String :=
  if !(dictHas pid st.compliantProducts)
      && !(dictHas pid st.partiallyCompliantProducts)
      && !(acc.contains pid) then
    acc ++ [pid]
  else acc

/-- The final value of `unentitled_pids`: it starts as (an alias of) the
snapshot's `nonCompliantProducts` and, when not in SCA mode, each installed
product id absent from the server's valid, partially-valid and non-compliant
collections is appended by `unentitledStep`. -/
def unentitledPids (isSca : Bool) (st : ServerStatus)
    (installed : List (String × Nat)) : List String :=
  if isSca then st.nonCompliantProducts
  else (installed.map Prod.fst).foldl (unentitledStep st) st.nonCompliantProducts

/-- The `for unentitled_pid in unentitled_pids` loop: file each pid with a
locally-found product certificate under `unentitled_products`, skipping pids
with no local certificate. -/
def unentitledFile (prodDir : List (String × Nat))
    (acc : List (String × Nat)) (pid : String) : List (String × Nat) :=
  match find_by_product prodDir pid with
  | none => acc
  | some pc => dictInsert pid pc acc

/-- The `for unentitled_pid in unentitled_pids` loop assembled. -/
def buildUnentitled (prodDir : List (String × Nat)) (pids : List String) :
    List (String × Nat) :=
  pids.foldl (unentitledFile prodDir) []

/-- Truthiness of `"status" in status and len(status["status"])`. -/
def truthyLabel : Option String → Bool
  | some l => l.length != 0
  | none => false

/-- `ComplianceManager._parse_server_status`.  Returns the new state together
with the snapshot as it stands after the call: `unentitled_pids` aliases the
snapshot's `nonCompliantProducts` list, so the appends mutate the snapshot. -/
def parse_server_status (env : Env) (s : CMState) : CMState × Option ServerStatus :=
  if !env.registered then (s, env.snapshot)
  else
    match env.snapshot with
    | none => (s, none)
    | some st =>
      let s := { s with
        valid_products := st.compliantProducts,
        partially_valid_products := st.partiallyCompliantProducts,
        partial_stacks := st.partialStacks }
      let s :=
        match st.reasons with
        | some r => { s with supports_reasons := true, reasons := r }
        | none => s
      let s := { s with system_status :=
        if (truthyLabel st.status) then st.status.getD ""
        else if !st.nonCompliantProducts.isEmpty then INVALID
        else if !s.partially_valid_products.isEmpty || !s.partial_stacks.isEmpty
            || !s.reasons.isEmpty then PARTIAL
        else UNKNOWN }
      let s := { s with compliant_until := st.compliantUntil.map parse_date }
      let pids := unentitledPids env.is_sca st s.installed_products
      let s := { s with unentitled_products := buildUnentitled env.prodDir pids }
      let s := scan_entitlement_certs env s
      (s, some { st with nonCompliantProducts := pids })

/-- The reset phase at the top of `ComplianceManager.load`: refresh
`installed_products` and empty every bucket, the reasons, the system status
and the valid-certificate list (`compliant_until` is not touched here; it is
assigned only inside `_parse_server_status`). -/
def reset_state (env : Env) (s : CMState) : CMState :=
  { s with
    installed_products := env.installed,
    unentitled_products := [],
    expired_products := [],
    partially_valid_products := [],
    valid_products := [],
    partial_stacks := [],
    future_products := [],
    reasons := [],
    supports_reasons := false,
    system_status := UNKNOWN,
    valid_entitlement_certs := [] }

/-- `ComplianceManager.load`: reset, then parse the server status.  The
second component is the server snapshot as it stands after the call. -/
def load (env : Env) (s : CMState) : CMState × Option ServerStatus :=
  parse_server_status env (reset_state env s)

/-! ### Queries -/

/-- `ComplianceManager.get_status` (`is_registered()` is consulted live, so it
is a parameter). -/
def get_status (registered : Bool) (s : CMState) (product_id : String) : String :=
  if !registered then UNKNOWN
  else if dictHas product_id s.partially_valid_products then PARTIALLY_SUBSCRIBED
  else if dictHas product_id s.valid_products then SUBSCRIBED
  else if dictHas product_id s.future_products then FUTURE_SUBSCRIBED
  else if dictHas product_id s.expired_products then EXPIRED
  else if dictHas product_id s.unentitled_products then NOT_SUBSCRIBED
  else UNKNOWN

/-- The state `_parse_server_status` has built just before it calls
`_scan_entitlement_certs`, starting from the reset state of `load`: server
maps copied in, reasons and `supports_reasons` taken from the optional
`"reasons"` key, the system status derived, `compliant_until` parsed, and the
unentitled bucket filled from the (possibly extended) non-compliant pids. -/
def preScanState (env : Env) (st : ServerStatus) : CMState where
  installed_products := env.installed
  unentitled_products :=
    buildUnentitled env.prodDir (unentitledPids env.is_sca st env.installed)
  expired_products := []
  partially_valid_products := st.partiallyCompliantProducts
  valid_products := st.compliantProducts
  partial_stacks := st.partialStacks
  future_products := []
  reasons := st.reasons.getD []
  supports_reasons := st.reasons.isSome
  system_status :=
    if (truthyLabel st.status) then st.status.getD ""
    else if !st.nonCompliantProducts.isEmpty then INVALID
    else if !st.partiallyCompliantProducts.isEmpty || !st.partialStacks.isEmpty
        || !(st.reasons.getD []).isEmpty then PARTIAL
    else UNKNOWN
  valid_entitlement_certs := []
  compliant_until := st.compliantUntil.map parse_date

/-- Pairwise disjointness of two key lists, as a decidable test. -/
def listDisjoint (a b : List String) : Bool :=
  a.all (fun k => !(b.contains k))

/-! ### Observer fan-out (`CertSorter.notify` / `add_callback` / `remove_callback`)

Callbacks are identified by naturals; the observer set is a duplicate-free
list.  A callback body is embedded as its effect on the registered set (all a
callback can do to the sorter's observers is add/remove entries). -/

/-- `CertSorter.add_callback`: `set.add`, a no-op when already present. -/
def add_callback (cb : Nat) (callbacks : List Nat) : List Nat :=
  if callbacks.contains cb then callbacks else callbacks ++ [cb]

/-- `CertSorter.remove_callback`: `set.remove`, returning `False` (and leaving
the set alone) when the callback was not registered. -/
def remove_callback (cb : Nat) (callbacks : List Nat) : Bool × List Nat :=
  if callbacks.contains cb then (true, callbacks.erase cb) else (false, callbacks)

/-- The `for callback in copy(self.callbacks): callback()` loop: iterate the
snapshot taken at the start, threading the live observer set through each
callback's effect.  Returns the live set after the pass and the invocation
log in order. -/
def runPass (effect : Nat → List Nat → List Nat) :
    List Nat → List Nat → List Nat × List Nat
  | [], live => (live, [])
  | c :: rest, live =>
    let r := runPass effect rest (effect c live)
    (r.1, c :: r.2)

/-- `CertSorter.notify`: run a pass over a copy of the current observer set. -/
def notify (effect : Nat → List Nat → List Nat) (callbacks : List Nat) :
    List Nat × List Nat :=
  runPass effect callbacks callbacks

/-- Scenario E's callback bodies: observer 1 removes observer 2 from within
the pass; every other observer leaves the set alone. -/
def removeSecondEffect : Nat → List Nat → List Nat :=
  fun c live => if c = 1 then (remove_callback 2 live).2 else live

/-! ### `StackingGroupSorter` / `EntitlementGroup`

The sorter is polymorphic over the two subclass hooks `_get_stacking_id` and
`_get_identity_name`; they are embedded as a pair of extraction functions. -/

/-- `EntitlementGroup`: a display name (`""` by default; the identity-name
hook may return `None`) and the member certificates in insertion order. -/
structure EntitlementGroup where
  name : Option String
  entitlements : List ECert
deriving DecidableEq, Repr

/-- The pair of extraction hooks a `StackingGroupSorter` subclass supplies. -/
structure SorterCtx where
  getStackingId : ECert → Option String
  getIdentityName : ECert → Option String

/-- Python truthiness of the extracted stacking id (`if stacking_id:`): both
`None` and the empty string count as "no stacking key". -/
def truthyId : Option String → Option String
  | some sid => if sid.length != 0 then some sid else none
  | none => none

/-- `EntitlementGroup.add_entitlement_cert`. -/
def add_entitlement_cert (g : EntitlementGroup) (e : ECert) : EntitlementGroup :=
  { g with entitlements := g.entitlements ++ [e] }

/-- `stacking_groups[stacking_id].add_entitlement_cert(entitlement)`: the dict
holds a reference to the (unique) group registered under the key, so the
append lands on that group inside `self.groups`.  The state pairs each group
with the key it is registered under (`none` for keyless singleton groups). -/
def addToGroup (sid : String) (e : ECert) :
    List (Option String × EntitlementGroup) → List (Option String × EntitlementGroup)
  | [] => []
  | (k, g) :: rest =>
    if k = some sid then (k, add_entitlement_cert g e) :: rest
    else (k, g) :: addToGroup sid e rest

/-- Body of the `for entitlement in entitlements` loop of
`StackingGroupSorter.__init__`. -/
def sorterStep (ctx : SorterCtx) (stt : List (Option String × EntitlementGroup))
    (entitlement : ECert) : List (Option String × EntitlementGroup) :=
  match truthyId (ctx.getStackingId entitlement) with
  | some sid =>
    if (stt.map Prod.fst).contains (some sid) then addToGroup sid entitlement stt
    else stt ++ [(some sid, ⟨ctx.getIdentityName entitlement, [entitlement]⟩)]
  | none => stt ++ [(none, ⟨some "", [entitlement]⟩)]

/-- `StackingGroupSorter.__init__`: the resulting `self.groups`. -/
def sorterGroups (ctx : SorterCtx) (entitlements : List ECert) :
    List EntitlementGroup :=
  (entitlements.foldl (sorterStep ctx) []).map Prod.snd

/-- Modelled from the spec (the refinement side of C10): groups in first-seen
order — a certificate with no (truthy) stacking key yields a singleton group
at its own position; the first certificate of each new stacking key yields a
group named from it carrying every certificate with that key in encounter
order; later certificates of a seen key yield no new group. -/
def specGroupsAux (ctx : SorterCtx) : List ECert → List String → List EntitlementGroup
  | [], _ => []
  | e :: rest, seen =>
    match truthyId (ctx.getStackingId e) with
    | none => ⟨some "", [e]⟩ :: specGroupsAux ctx rest seen
    | some sid =>
      if seen.contains sid then specGroupsAux ctx rest seen
      else
        ⟨ctx.getIdentityName e,
          e :: rest.filter (fun c => truthyId (ctx.getStackingId c) == some sid)⟩
          :: specGroupsAux ctx rest (seen ++ [sid])

/-- The spec-side description of the whole assembler. -/
def specGroups (ctx : SorterCtx) (certs : List ECert) : List EntitlementGroup :=
  specGroupsAux ctx certs []

/-- Proof device: what the groups of an intermediate sorter state will look
like once the remaining certificates `rest` have been folded in — each group
registered under a key receives, at the end of its member list, the
remaining certificates carrying that key. -/
def augmentGroups (rest : List ECert) (ctx : SorterCtx)
    (stt : List (Option String × EntitlementGroup)) : List EntitlementGroup :=
  stt.map (fun p =>
    match p.1 with
    | some sid =>
      { p.2 with entitlements := p.2.entitlements
          ++ rest.filter (fun c => truthyId (ctx.getStackingId c) == some sid) }
    | none => p.2)

/-! ### Concrete fixtures -/

/-- The all-empty derived state. -/
def initState : CMState where
  installed_products := []
  unentitled_products := []
  expired_products := []
  partially_valid_products := []
  valid_products := []
  partial_stacks := []
  future_products := []
  reasons := []
  supports_reasons := false
  system_status := UNKNOWN
  valid_entitlement_certs := []
  compliant_until := none

/-- A snapshot with every field empty or absent. -/
def emptyStatus : ServerStatus where
  compliantProducts := []
  partiallyCompliantProducts := []
  partialStacks := []
  nonCompliantProducts := []
  status := none
  compliantUntil := none
  reasons := none

/-- A registered environment whose snapshot carries `compliantUntil = 0`. -/
def envCompliantUntil : Env where
  registered := true
  snapshot := some { emptyStatus with compliantUntil := some 0 }
  is_sca := true
  installed := []
  prodDir := []
  entCerts := []
  now := 0

/-- A registered environment where the status cache yields nothing. -/
def envNoSnapshot : Env where
  registered := true
  snapshot := none
  is_sca := false
  installed := []
  prodDir := []
  entCerts := []
  now := 0

/-- A prior state holding a non-empty valid bucket and a valid system status. -/
def priorState : CMState :=
  { initState with valid_products := [("p", 1)], system_status := VALID }

/-- A non-SCA environment with an installed product `q` that the (otherwise
empty) server snapshot does not mention anywhere. -/
def envDrift : Env where
  registered := true
  snapshot := some emptyStatus
  is_sca := false
  installed := [("q", 5)]
  prodDir := []
  entCerts := []
  now := 0

/-- An entitlement certificate covering product `p` that expired at instant 0. -/
def expiredCert : ECert where
  certId := 1
  products := ["p"]
  rangeBegin := 0
  rangeEnd := 0
  validNow := false
  expiring := false

/-- An environment where installed product `p` is server-non-compliant and
also covered by a local expired entitlement certificate. -/
def envOverlap : Env where
  registered := true
  snapshot := some { emptyStatus with nonCompliantProducts := ["p"] }
  is_sca := true
  installed := [("p", 1)]
  prodDir := [("p", 1)]
  entCerts := [expiredCert]
  now := 5

/-- `ComplianceManager.in_warning_period`. -/
def in_warning_period (s : CMState) : Bool :=
  s.valid_entitlement_certs.any (fun e => e.expiring)

/-- `ComplianceManager.get_status_for_icon`. -/
def get_status_for_icon (s : CMState) : Nat :=
  if s.system_status = "invalid" then RHSM_EXPIRED
  else if s.system_status = "partial" then RHSM_PARTIALLY_VALID
  else if in_warning_period s then RHSM_WARNING
  else RHSM_VALID

/-- Relation between states: `t` agrees with `s` on every field that
`_scan_entitlement_certs` leaves alone (everything except the future and
expired buckets and the valid-certificate list). -/
def OnlyScanChanges (s t : CMState) : Prop :=
  t.installed_products = s.installed_products
  ∧ t.unentitled_products = s.unentitled_products
  ∧ t.partially_valid_products = s.partially_valid_products
  ∧ t.valid_products = s.valid_products
  ∧ t.partial_stacks = s.partial_stacks
  ∧ t.reasons = s.reasons
  ∧ t.supports_reasons = s.supports_reasons
  ∧ t.system_status = s.system_status
  ∧ t.compliant_until = s.compliant_until

/-! ### Helper lemmas -/

theorem onlyScanChanges_refl (s : CMState) : OnlyScanChanges s s :=
  ⟨rfl, rfl, rfl, rfl, rfl, rfl, rfl, rfl, rfl⟩

theorem onlyScanChanges_trans {s t u : CMState}
    (h1 : OnlyScanChanges s t) (h2 : OnlyScanChanges t u) : OnlyScanChanges s u := by
  obtain ⟨a1, a2, a3, a4, a5, a6, a7, a8, a9⟩ := h1
  obtain ⟨b1, b2, b3, b4, b5, b6, b7, b8, b9⟩ := h2
  exact ⟨b1.trans a1, b2.trans a2, b3.trans a3, b4.trans a4, b5.trans a5,
    b6.trans a6, b7.trans a7, b8.trans a8, b9.trans a9⟩

theorem scanStepInner_onlyScanChanges (u : List String) (n : Int) (c : ECert)
    (s : CMState) (pid : String) : OnlyScanChanges s (scanStepInner u n c s pid) := by
  unfold scanStepInner
  split_ifs <;> exact ⟨rfl, rfl, rfl, rfl, rfl, rfl, rfl, rfl, rfl⟩

theorem foldl_onlyScanChanges {α : Type} (g : CMState → α → CMState)
    (hg : ∀ s x, OnlyScanChanges s (g s x)) :
    ∀ (l : List α) (s : CMState), OnlyScanChanges s (l.foldl g s) := by
  intro l
  induction l with
  | nil => intro s; exact onlyScanChanges_refl s
  | cons x xs ih =>
    intro s
    exact onlyScanChanges_trans (hg s x) (ih (g s x))

theorem scanStepCert_onlyScanChanges (u : List String) (n : Int)
    (s : CMState) (c : ECert) : OnlyScanChanges s (scanStepCert u n s c) := by
  unfold scanStepCert
  refine onlyScanChanges_trans ?_
    (foldl_onlyScanChanges _ (scanStepInner_onlyScanChanges u n c) c.products _)
  split_ifs <;> exact ⟨rfl, rfl, rfl, rfl, rfl, rfl, rfl, rfl, rfl⟩

theorem scan_onlyScanChanges (env : Env) (s : CMState) :
    OnlyScanChanges s (scan_entitlement_certs env s) :=
  foldl_onlyScanChanges _ (scanStepCert_onlyScanChanges (unknownKeysOf s) env.now)
    env.entCerts s

theorem dictHas_iff_mem {β : Type} (k : String) (d : List (String × β)) :
    dictHas k d = true ↔ k ∈ dictKeys d := by
  simp [dictHas, dictKeys]

theorem dictHas_false_iff {β : Type} (k : String) (d : List (String × β)) :
    dictHas k d = false ↔ k ∉ dictKeys d := by
  rw [← Bool.not_eq_true, not_iff_not]
  exact dictHas_iff_mem k d

theorem dictHas_dictInsert {β : Type} (k k' : String) (v : β)
    (d : List (String × β)) (h : dictHas k (dictInsert k' v d) = true) :
    k = k' ∨ dictHas k d = true := by
  induction d with
  | nil => simp [dictInsert, dictHas] at h; exact Or.inl h
  | cons p rest ih =>
    unfold dictInsert at h
    split_ifs at h with he
    · simp [dictHas] at h ⊢
      rcases h with h | h
      · exact Or.inl h
      · exact Or.inr (Or.inr h)
    · simp [dictHas] at h ⊢
      rcases h with h | h
      · exact Or.inr (Or.inl h)
      · rcases ih (by simpa [dictHas] using h) with h' | h'
        · exact Or.inl h'
        · simp [dictHas] at h'
          exact Or.inr (Or.inr h')

theorem dictHas_dictAppendAt {β : Type} (k k' : String) (c : β)
    (d : List (String × List β)) (h : dictHas k (dictAppendAt k' c d) = true) :
    k = k' ∨ dictHas k d = true := by
  induction d with
  | nil => simp [dictAppendAt, dictHas] at h; exact Or.inl h
  | cons p rest ih =>
    unfold dictAppendAt at h
    split_ifs at h with he
    · simp [dictHas] at h ⊢
      rcases h with h | h
      · exact Or.inr (Or.inl h)
      · exact Or.inr (Or.inr h)
    · simp [dictHas] at h ⊢
      rcases h with h | h
      · exact Or.inr (Or.inl h)
      · rcases ih (by simpa [dictHas] using h) with h' | h'
        · exact Or.inl h'
        · simp [dictHas] at h'
          exact Or.inr (Or.inr h')

theorem scanStepInner_mem (u : List String) (n : Int) (c : ECert)
    (s : CMState) (pid q : String) :
    (dictHas q (scanStepInner u n c s pid).expired_products = true →
      dictHas q s.expired_products = true ∨ q ∈ u)
    ∧ (dictHas q (scanStepInner u n c s pid).future_products = true →
      dictHas q s.future_products = true ∨ q ∈ u) := by
  unfold scanStepInner
  split_ifs with h1 h2 h3 <;> constructor <;> intro h <;>
    first
    | exact Or.inl h
    | (rcases dictHas_dictAppendAt q pid c _ h with h' | h'
       · subst h'; exact Or.inr (by simpa using h1)
       · exact Or.inl h')

theorem foldl_scan_mem {α : Type} (g : CMState → α → CMState) (u : List String)
    (q : String)
    (hg : ∀ s x, (dictHas q (g s x).expired_products = true →
        dictHas q s.expired_products = true ∨ q ∈ u)
      ∧ (dictHas q (g s x).future_products = true →
        dictHas q s.future_products = true ∨ q ∈ u)) :
    ∀ (l : List α) (s : CMState),
      (dictHas q (l.foldl g s).expired_products = true →
        dictHas q s.expired_products = true ∨ q ∈ u)
      ∧ (dictHas q (l.foldl g s).future_products = true →
        dictHas q s.future_products = true ∨ q ∈ u) := by
  intro l
  induction l with
  | nil => intro s; exact ⟨fun h => Or.inl h, fun h => Or.inl h⟩
  | cons x xs ih =>
    intro s
    constructor
    · intro h
      rcases (ih (g s x)).1 h with h' | h'
      · exact (hg s x).1 h'
      · exact Or.inr h'
    · intro h
      rcases (ih (g s x)).2 h with h' | h'
      · exact (hg s x).2 h'
      · exact Or.inr h'

theorem scanStepCert_mem (u : List String) (n : Int) (s : CMState) (c : ECert)
    (q : String) :
    (dictHas q (scanStepCert u n s c).expired_products = true →
      dictHas q s.expired_products = true ∨ q ∈ u)
    ∧ (dictHas q (scanStepCert u n s c).future_products = true →
      dictHas q s.future_products = true ∨ q ∈ u) := by
  unfold scanStepCert
  have hbase := foldl_scan_mem (scanStepInner u n c) u q
    (fun s' pid => scanStepInner_mem u n c s' pid q) c.products
  split_ifs with hv
  · constructor
    · intro h
      rcases (hbase _).1 h with h' | h'
      · exact Or.inl (by simpa using h')
      · exact Or.inr h'
    · intro h
      rcases (hbase _).2 h with h' | h'
      · exact Or.inl (by simpa using h')
      · exact Or.inr h'
  · exact hbase s

theorem scan_mem (env : Env) (s : CMState) (q : String) :
    (dictHas q (scan_entitlement_certs env s).expired_products = true →
      dictHas q s.expired_products = true ∨ q ∈ unknownKeysOf s)
    ∧ (dictHas q (scan_entitlement_certs env s).future_products = true →
      dictHas q s.future_products = true ∨ q ∈ unknownKeysOf s) :=
  foldl_scan_mem (scanStepCert (unknownKeysOf s) env.now) (unknownKeysOf s) q
    (fun s' c => scanStepCert_mem (unknownKeysOf s) env.now s' c q)
    env.entCerts s

theorem unknownKeysOf_mem (s : CMState) (q : String) (h : q ∈ unknownKeysOf s) :
    dictHas q s.valid_products = false
    ∧ dictHas q s.partially_valid_products = false := by
  simp only [unknownKeysOf, List.mem_map, List.mem_filter] at h
  obtain ⟨p, ⟨_, hp⟩, rfl⟩ := h
  simpa using hp

theorem unentitledStep_fold_mem (st : ServerStatus) (q : String) :
    ∀ (l : List String) (acc : List String),
      q ∈ l.foldl (unentitledStep st) acc →
      q ∈ acc ∨ (dictHas q st.compliantProducts = false
        ∧ dictHas q st.partiallyCompliantProducts = false) := by
  intro l
  induction l with
  | nil => intro acc h; exact Or.inl h
  | cons pid rest ih =>
    intro acc h
    rw [List.foldl_cons] at h
    rcases ih (unentitledStep st acc pid) h with h' | h'
    · unfold unentitledStep at h'
      split_ifs at h' with hc
      · rcases List.mem_append.1 h' with h'' | h''
        · exact Or.inl h''
        · simp only [List.mem_singleton] at h''
          subst h''
          simp only [Bool.and_eq_true, Bool.not_eq_true'] at hc
          exact Or.inr ⟨hc.1.1, hc.1.2⟩
      · exact Or.inl h'
    · exact Or.inr h'

theorem unentitledPids_mem (isSca : Bool) (st : ServerStatus)
    (installed : List (String × Nat)) (q : String)
    (h : q ∈ unentitledPids isSca st installed) :
    q ∈ st.nonCompliantProducts
    ∨ (dictHas q st.compliantProducts = false
      ∧ dictHas q st.partiallyCompliantProducts = false) := by
  unfold unentitledPids at h
  split_ifs at h
  · exact Or.inl h
  · exact unentitledStep_fold_mem st q _ _ h

theorem unentitledStep_fold_exact (st : ServerStatus) :
    ∀ (l : List String) (acc : List String),
      ∃ extra, l.foldl (unentitledStep st) acc = acc ++ extra
        ∧ ∀ pid ∈ extra, pid ∉ acc ∧ pid ∈ l
          ∧ dictHas pid st.compliantProducts = false
          ∧ dictHas pid st.partiallyCompliantProducts = false := by
  intro l
  induction l with
  | nil => intro acc; exact ⟨[], by simp, by simp⟩
  | cons pid rest ih =>
    intro acc
    rw [List.foldl_cons]
    cases hc : (!(dictHas pid st.compliantProducts)
        && !(dictHas pid st.partiallyCompliantProducts)
        && !(acc.contains pid)) with
    | false =>
      rw [show unentitledStep st acc pid = acc from by
        simp only [unentitledStep]; rw [hc]; simp]
      obtain ⟨e, he, hm⟩ := ih acc
      refine ⟨e, he, ?_⟩
      intro q hq
      obtain ⟨h1, h2, h3, h4⟩ := hm q hq
      exact ⟨h1, List.mem_cons_of_mem pid h2, h3, h4⟩
    | true =>
      rw [show unentitledStep st acc pid = acc ++ [pid] from by
        simp only [unentitledStep]; rw [hc]; simp]
      obtain ⟨e, he, hm⟩ := ih (acc ++ [pid])
      simp only [Bool.and_eq_true, Bool.not_eq_true'] at hc
      refine ⟨pid :: e, by simpa using he, ?_⟩
      intro q hq
      rcases List.mem_cons.1 hq with hq' | hq'
      · rw [hq']
        refine ⟨?_, List.mem_cons_self pid rest, hc.1.1, hc.1.2⟩
        intro hqa
        have hct : acc.contains pid = true := by simpa using hqa
        rw [hct] at hc
        exact absurd hc.2 (by simp)
      · obtain ⟨h1, h2, h3, h4⟩ := hm q hq'
        refine ⟨fun hqa => h1 (List.mem_append_left _ hqa),
          List.mem_cons_of_mem pid h2, h3, h4⟩

theorem unentitledStep_fold_subset (st : ServerStatus) :
    ∀ (l : List String) (acc : List String) (pid : String),
      (pid ∈ acc ∨ (pid ∈ l ∧ dictHas pid st.compliantProducts = false
        ∧ dictHas pid st.partiallyCompliantProducts = false)) →
      pid ∈ l.foldl (unentitledStep st) acc := by
  intro l
  induction l with
  | nil =>
    intro acc pid h
    rcases h with h | ⟨h', _, _⟩
    · exact h
    · cases h'
  | cons x rest ih =>
    intro acc pid h
    rw [List.foldl_cons]
    have hmono : pid ∈ acc → pid ∈ unentitledStep st acc x := by
      intro hacc
      unfold unentitledStep
      split_ifs <;> simp [hacc]
    rcases h with hacc | ⟨hl, hc, hp⟩
    · exact ih _ pid (Or.inl (hmono hacc))
    · rcases List.mem_cons.1 hl with hx | hrest
      · refine ih _ pid (Or.inl ?_)
        rw [← hx]
        unfold unentitledStep
        cases hac : acc.contains pid with
        | true =>
          have hacc : pid ∈ acc := by simpa using hac
          split_ifs <;> simp [hacc]
        | false =>
          rw [hc, hp]
          simp
      · exact ih _ pid (Or.inr ⟨hrest, hc, hp⟩)

theorem buildUnentitled_fold_mem (prodDir : List (String × Nat)) (q : String) :
    ∀ (pids : List String) (acc : List (String × Nat)),
      dictHas q (pids.foldl (unentitledFile prodDir) acc) = true →
      dictHas q acc = true ∨ q ∈ pids := by
  intro pids
  induction pids with
  | nil => intro acc h; exact Or.inl h
  | cons pid rest ih =>
    intro acc h
    rw [List.foldl_cons] at h
    rcases ih (unentitledFile prodDir acc pid) h with h' | h'
    · unfold unentitledFile at h'
      rcases hf : find_by_product prodDir pid with _ | pc
      · rw [hf] at h'; exact Or.inl h'
      · rw [hf] at h'
        rcases dictHas_dictInsert q pid pc acc h' with h'' | h''
        · exact Or.inr (by simp [h''])
        · exact Or.inl h''
    · exact Or.inr (List.mem_cons_of_mem pid h')

theorem buildUnentitled_mem (prodDir : List (String × Nat)) (pids : List String)
    (q : String) (h : dictHas q (buildUnentitled prodDir pids) = true) :
    q ∈ pids := by
  rcases buildUnentitled_fold_mem prodDir q pids [] h with h' | h'
  · simp [dictHas] at h'
  · exact h'

theorem listDisjoint_not_mem {a b : List String} (h : listDisjoint a b = true)
    {x : String} (hx : x ∈ a) : x ∉ b := by
  simp only [listDisjoint, List.all_eq_true] at h
  have := h x hx
  simpa using this

/-- The invocation log of a pass is exactly the snapshot it was started with,
whatever the callbacks do to the live set. -/
theorem runPass_log (effect : Nat → List Nat → List Nat) (snap : List Nat) :
    ∀ live, (runPass effect snap live).2 = snap := by
  induction snap with
  | nil => intro live; rfl
  | cons c rest ih => intro live; simp [runPass, ih]

/-- Under a registered identity and a returned snapshot, `load` produces the
scan of the pre-scan state and hands back the snapshot with its
`nonCompliantProducts` list rebound to the final `unentitled_pids`,
independently of the prior state. -/
theorem load_eq_preScan (env : Env) (st : ServerStatus) (t : CMState)
    (hreg : env.registered = true) (hsnap : env.snapshot = some st) :
    load env t = (scan_entitlement_certs env (preScanState env st),
      some { st with nonCompliantProducts := unentitledPids env.is_sca st env.installed }) := by
  cases hr : st.reasons <;>
    simp [load, parse_server_status, reset_state, preScanState, hreg, hsnap, hr]

theorem augmentGroups_nil (ctx : SorterCtx)
    (stt : List (Option String × EntitlementGroup)) :
    augmentGroups [] ctx stt = stt.map Prod.snd := by
  unfold augmentGroups
  induction stt with
  | nil => rfl
  | cons p rest ih =>
    rcases p with ⟨k, g⟩
    cases k <;> simp_all

theorem augmentGroups_append (rest : List ECert) (ctx : SorterCtx)
    (s1 s2 : List (Option String × EntitlementGroup)) :
    augmentGroups rest ctx (s1 ++ s2)
      = augmentGroups rest ctx s1 ++ augmentGroups rest ctx s2 := by
  simp [augmentGroups]

theorem addToGroup_filterMap (sid : String) (e : ECert) :
    ∀ stt : List (Option String × EntitlementGroup),
      (addToGroup sid e stt).filterMap Prod.fst = stt.filterMap Prod.fst := by
  intro stt
  induction stt with
  | nil => rfl
  | cons p rest ih =>
    rcases p with ⟨k, g⟩
    unfold addToGroup
    split_ifs with hk
    · simp [hk]
    · simp only [List.filterMap_cons]
      cases k <;> simp [ih]

theorem keys_contains_iff (stt : List (Option String × EntitlementGroup))
    (sid : String) :
    (stt.map Prod.fst).contains (some sid) = true ↔ sid ∈ stt.filterMap Prod.fst := by
  simp [List.mem_filterMap, List.mem_map]

theorem augmentGroups_cons_skip (ctx : SorterCtx) (e : ECert) (rest : List ECert) :
    ∀ stt : List (Option String × EntitlementGroup),
      (∀ sid, sid ∈ stt.filterMap Prod.fst →
        truthyId (ctx.getStackingId e) ≠ some sid) →
      augmentGroups (e :: rest) ctx stt = augmentGroups rest ctx stt := by
  intro stt
  induction stt with
  | nil => intro _; rfl
  | cons p tail ih =>
    intro h
    rcases p with ⟨k, g⟩
    have htail : augmentGroups (e :: rest) ctx tail = augmentGroups rest ctx tail := by
      apply ih
      intro sid hs
      apply h sid
      cases k <;> simp [List.filterMap_cons, hs]
    unfold augmentGroups at htail ⊢
    simp only [List.map_cons]
    rw [htail]
    cases k with
    | none => rfl
    | some sid0 =>
      have hne : truthyId (ctx.getStackingId e) ≠ some sid0 := by
        apply h sid0
        simp [List.filterMap_cons]
      have hpred : (truthyId (ctx.getStackingId e) == some sid0) = false := by
        simpa using hne
      simp [List.filter_cons, hpred]

theorem augmentGroups_addToGroup (ctx : SorterCtx) (e : ECert) (rest : List ECert)
    (sid : String) (hk : truthyId (ctx.getStackingId e) = some sid) :
    ∀ stt : List (Option String × EntitlementGroup),
      (stt.filterMap Prod.fst).Nodup →
      augmentGroups rest ctx (addToGroup sid e stt)
        = augmentGroups (e :: rest) ctx stt := by
  intro stt
  induction stt with
  | nil => intro _; rfl
  | cons p tail ih =>
    intro hnd
    rcases p with ⟨k, g⟩
    by_cases hks : k = some sid
    · subst hks
      have hstep : addToGroup sid e ((some sid, g) :: tail)
          = (some sid, add_entitlement_cert g e) :: tail := by
        unfold addToGroup
        rw [if_pos rfl]
      rw [hstep]
      have hsid_tail : sid ∉ tail.filterMap Prod.fst := by
        have h2 : (sid :: tail.filterMap Prod.fst).Nodup := by
          simpa [List.filterMap_cons] using hnd
        exact (List.nodup_cons.1 h2).1
      have htail : augmentGroups (e :: rest) ctx tail
          = augmentGroups rest ctx tail := by
        apply augmentGroups_cons_skip
        intro sid' hs' hcontra
        rw [hk] at hcontra
        have h3 : sid = sid' := by injection hcontra
        exact hsid_tail (h3 ▸ hs')
      have hpred : (truthyId (ctx.getStackingId e) == some sid) = true := by
        simp [hk]
      unfold augmentGroups at htail ⊢
      simp only [List.map_cons]
      rw [htail]
      simp [add_entitlement_cert, List.filter_cons, hpred, List.append_assoc]
    · have hstep : addToGroup sid e ((k, g) :: tail)
          = (k, g) :: addToGroup sid e tail := by
        simp only [addToGroup]
        rw [if_neg hks]
      rw [hstep]
      have hnd_tail : (tail.filterMap Prod.fst).Nodup := by
        cases k with
        | none => simpa [List.filterMap_cons] using hnd
        | some a =>
          have h2 : (a :: tail.filterMap Prod.fst).Nodup := by
            simpa [List.filterMap_cons] using hnd
          exact (List.nodup_cons.1 h2).2
      have htail := ih hnd_tail
      unfold augmentGroups at htail ⊢
      simp only [List.map_cons]
      rw [htail]
      cases k with
      | none => rfl
      | some a =>
        have haa : a ≠ sid := fun h' => hks (by rw [h'])
        have hpred : (truthyId (ctx.getStackingId e) == some a) = false := by
          rw [hk]
          simpa using fun h' => haa h'.symm
        simp [List.filter_cons, hpred]

theorem sorter_fold_spec (ctx : SorterCtx) :
    ∀ (rest : List ECert) (stt : List (Option String × EntitlementGroup)),
      (stt.filterMap Prod.fst).Nodup →
      (rest.foldl (sorterStep ctx) stt).map Prod.snd
        = augmentGroups rest ctx stt
          ++ specGroupsAux ctx rest (stt.filterMap Prod.fst) := by
  intro rest
  induction rest with
  | nil =>
    intro stt _
    simp [augmentGroups_nil, specGroupsAux]
  | cons e rest' ih =>
    intro stt hnd
    rw [List.foldl_cons]
    rcases hti : truthyId (ctx.getStackingId e) with _ | sid
    · have hstep : sorterStep ctx stt e = stt ++ [(none, ⟨some "", [e]⟩)] := by
        simp [sorterStep, hti]
      rw [hstep]
      have hkeys : ((stt ++ [((none : Option String),
          (⟨some "", [e]⟩ : EntitlementGroup))]).filterMap Prod.fst)
          = stt.filterMap Prod.fst := by
        simp
      have hnd' := hkeys ▸ hnd
      rw [ih _ hnd', hkeys, augmentGroups_append]
      have hskip : augmentGroups (e :: rest') ctx stt
          = augmentGroups rest' ctx stt := by
        apply augmentGroups_cons_skip
        intro sid' _
        rw [hti]
        exact fun h => Option.noConfusion h
      have hspec : specGroupsAux ctx (e :: rest') (stt.filterMap Prod.fst)
          = (⟨some "", [e]⟩ : EntitlementGroup)
            :: specGroupsAux ctx rest' (stt.filterMap Prod.fst) := by
        simp [specGroupsAux, hti]
      rw [hspec, hskip]
      simp [augmentGroups]
    · by_cases hmem : sid ∈ stt.filterMap Prod.fst
      · have hcont : (stt.map Prod.fst).contains (some sid) = true :=
          (keys_contains_iff stt sid).2 hmem
        have hstep : sorterStep ctx stt e = addToGroup sid e stt := by
          simp only [sorterStep, hti]
          rw [hcont]
          simp
        rw [hstep]
        have hnd' : ((addToGroup sid e stt).filterMap Prod.fst).Nodup := by
          rw [addToGroup_filterMap]
          exact hnd
        rw [ih _ hnd', addToGroup_filterMap,
          augmentGroups_addToGroup ctx e rest' sid hti stt hnd]
        have hcont_seen : (stt.filterMap Prod.fst).contains sid = true := by
          simpa using hmem
        have hspec : specGroupsAux ctx (e :: rest') (stt.filterMap Prod.fst)
            = specGroupsAux ctx rest' (stt.filterMap Prod.fst) := by
          simp only [specGroupsAux, hti]
          rw [hcont_seen]
          simp
        rw [hspec]
      · have hcont : (stt.map Prod.fst).contains (some sid) = false := by
          rw [← Bool.not_eq_true]
          intro h
          exact hmem ((keys_contains_iff stt sid).1 h)
        have hstep : sorterStep ctx stt e
            = stt ++ [(some sid, ⟨ctx.getIdentityName e, [e]⟩)] := by
          simp only [sorterStep, hti]
          rw [hcont]
          simp
        rw [hstep]
        have hkeys : ((stt ++ [(some sid,
            (⟨ctx.getIdentityName e, [e]⟩ : EntitlementGroup))]).filterMap Prod.fst)
            = stt.filterMap Prod.fst ++ [sid] := by
          simp
        have hnd' : ((stt ++ [(some sid,
            (⟨ctx.getIdentityName e, [e]⟩ : EntitlementGroup))]).filterMap
              Prod.fst).Nodup := by
          rw [hkeys, List.nodup_append]
          refine ⟨hnd, List.nodup_singleton sid, ?_⟩
          intro a ha hb
          simp only [List.mem_singleton] at hb
          subst hb
          exact hmem ha
        rw [ih _ hnd', hkeys, augmentGroups_append]
        have hskip : augmentGroups (e :: rest') ctx stt
            = augmentGroups rest' ctx stt := by
          apply augmentGroups_cons_skip
          intro sid' hs'
          rw [hti]
          intro hcontra
          have h3 : sid = sid' := by injection hcontra
          exact hmem (h3 ▸ hs')
        have hcont_seen : (stt.filterMap Prod.fst).contains sid = false := by
          rw [← Bool.not_eq_true]
          intro h
          exact hmem (by simpa using h)
        have hspec : specGroupsAux ctx (e :: rest') (stt.filterMap Prod.fst)
            = (⟨ctx.getIdentityName e, e :: rest'.filter
                (fun c => truthyId (ctx.getStackingId c) == some sid)⟩
                : EntitlementGroup)
              :: specGroupsAux ctx rest' (stt.filterMap Prod.fst ++ [sid]) := by
          simp only [specGroupsAux, hti]
          rw [hcont_seen]
          simp
        rw [hspec, hskip]
        simp [augmentGroups]

/-! ### Claims -/

/-! ### Claims -/

/-- C1 (code at the failing input): the server snapshot carries
`compliantUntil = 0`; the code stores the parsed instant unchanged, which
differs from the value (0 − 1 second) + 24 hours that the claim requires. -/
theorem compliant_until_no_offset :
    ((load envCompliantUntil initState).1.compliant_until = some 0)
    ∧ some (0 : Int) ≠ some ((0 : Int) - 1 + 24 * 60 * 60) :=
  ⟨rfl, by decide⟩

/-- C2 counterexample: with a registered identity and no snapshot returned,
`load` does not leave the prior view unchanged — the valid bucket and the
system status of `priorState` are wiped. -/
theorem load_no_snapshot_counterexample :
    ¬((load envNoSnapshot priorState).1.valid_products = priorState.valid_products
      ∧ (load envNoSnapshot priorState).1.system_status = priorState.system_status) := by
  decide

/-- C2 (amended): on a registered system, when the server query returns no
snapshot, `load` resets the view — all five buckets empty, system status
UNKNOWN, no valid certificates — retaining only the prior `compliant_until`;
the call returns normally (the embedding is a total function) and a repeated
call yields the same reset state. -/
theorem load_no_snapshot_resets (env : Env) (s : CMState)
    (hreg : env.registered = true) (hsnap : env.snapshot = none) :
    ((load env s).1.unentitled_products = [])
    ∧ ((load env s).1.expired_products = [])
    ∧ ((load env s).1.partially_valid_products = [])
    ∧ ((load env s).1.valid_products = [])
    ∧ ((load env s).1.future_products = [])
    ∧ ((load env s).1.system_status = UNKNOWN)
    ∧ ((load env s).1.valid_entitlement_certs = [])
    ∧ ((load env s).1.compliant_until = s.compliant_until)
    ∧ ((load env (load env s).1).1 = (load env s).1) := by
  have h : ∀ t : CMState, load env t = (reset_state env t, none) := by
    intro t
    simp [load, parse_server_status, hreg, hsnap]
  rw [h s, h (reset_state env s, none).1]
  refine ⟨rfl, rfl, rfl, rfl, rfl, rfl, rfl, rfl, rfl⟩

/-- C2 witness: the amended statement evaluated on the concrete fixtures. -/
theorem load_no_snapshot_resets_witness :
    (envNoSnapshot.registered = true) ∧ (envNoSnapshot.snapshot = none)
    ∧ ((load envNoSnapshot priorState).1.valid_products = []) :=
  ⟨rfl, rfl, (load_no_snapshot_resets envNoSnapshot priorState rfl rfl).2.2.2.1⟩

/-- C3 counterexample: product `p` is installed, listed by the server as
non-compliant, and covered by a local expired entitlement; after `load` it
sits in the expired bucket and in the unentitled bucket at once. -/
theorem bucket_overlap_counterexample :
    dictHas "p" (load envOverlap initState).1.expired_products = true
    ∧ dictHas "p" (load envOverlap initState).1.unentitled_products = true := by
  decide

/-- C3 (amended): provided the server's compliant, partially-compliant and
non-compliant product collections are pairwise disjoint, after `load` no id
in the expired, future or unentitled bucket is in the valid or the
partially-valid bucket, and no id is in both valid and partially-valid; the
expired, future and unentitled buckets themselves may overlap. -/
theorem bucket_disjointness (env : Env) (st : ServerStatus) (s : CMState)
    (q : String) (hreg : env.registered = true) (hsnap : env.snapshot = some st)
    (hd1 : listDisjoint (dictKeys st.compliantProducts)
      (dictKeys st.partiallyCompliantProducts) = true)
    (hd2 : listDisjoint st.nonCompliantProducts
      (dictKeys st.compliantProducts) = true)
    (hd3 : listDisjoint st.nonCompliantProducts
      (dictKeys st.partiallyCompliantProducts) = true) :
    (¬(dictHas q (load env s).1.valid_products = true
        ∧ dictHas q (load env s).1.partially_valid_products = true))
    ∧ (dictHas q (load env s).1.expired_products = true →
        dictHas q (load env s).1.valid_products = false
        ∧ dictHas q (load env s).1.partially_valid_products = false)
    ∧ (dictHas q (load env s).1.future_products = true →
        dictHas q (load env s).1.valid_products = false
        ∧ dictHas q (load env s).1.partially_valid_products = false)
    ∧ (dictHas q (load env s).1.unentitled_products = true →
        dictHas q (load env s).1.valid_products = false
        ∧ dictHas q (load env s).1.partially_valid_products = false) := by
  rw [load_eq_preScan env st s hreg hsnap]
  dsimp only
  obtain ⟨h_inst, h_unent, h_pv, h_valid, h_stacks, h_r, h_sup, h_sys, h_cu⟩ :=
    scan_onlyScanChanges env (preScanState env st)
  have hev : (preScanState env st).valid_products = st.compliantProducts := rfl
  have hep : (preScanState env st).partially_valid_products
      = st.partiallyCompliantProducts := rfl
  have from_unknown : ∀ r : String, r ∈ unknownKeysOf (preScanState env st) →
      dictHas r (scan_entitlement_certs env (preScanState env st)).valid_products = false
      ∧ dictHas r
        (scan_entitlement_certs env (preScanState env st)).partially_valid_products
        = false := by
    intro r hr
    have h' := unknownKeysOf_mem (preScanState env st) r hr
    rw [h_valid, h_pv]
    exact h'
  refine ⟨?_, ?_, ?_, ?_⟩
  · rintro ⟨ha, hb⟩
    rw [h_valid, hev] at ha
    rw [h_pv, hep] at hb
    exact listDisjoint_not_mem hd1 ((dictHas_iff_mem q _).1 ha)
      ((dictHas_iff_mem q _).1 hb)
  · intro h
    rcases (scan_mem env (preScanState env st) q).1 h with h' | h'
    · simp [preScanState, dictHas] at h'
    · exact from_unknown q h'
  · intro h
    rcases (scan_mem env (preScanState env st) q).2 h with h' | h'
    · simp [preScanState, dictHas] at h'
    · exact from_unknown q h'
  · intro h
    rw [h_unent] at h
    have hq : q ∈ unentitledPids env.is_sca st env.installed :=
      buildUnentitled_mem env.prodDir _ q h
    rcases unentitledPids_mem env.is_sca st env.installed q hq with hnc | ⟨hfa, hfb⟩
    · rw [h_valid, hev, h_pv, hep]
      exact ⟨(dictHas_false_iff q _).2 (listDisjoint_not_mem hd2 hnc),
        (dictHas_false_iff q _).2 (listDisjoint_not_mem hd3 hnc)⟩
    · rw [h_valid, hev, h_pv, hep]
      exact ⟨hfa, hfb⟩

/-- C3 witness: the amended statement on the concrete fixtures. -/
theorem bucket_disjointness_witness :
    (listDisjoint [] [] = true)
    ∧ ¬(dictHas "p" (load envCompliantUntil initState).1.valid_products = true
        ∧ dictHas "p" (load envCompliantUntil initState).1.partially_valid_products
          = true) :=
  ⟨by decide, (bucket_disjointness envCompliantUntil
    { emptyStatus with compliantUntil := some 0 } initState "p" rfl rfl
    (by decide) (by decide) (by decide)).1⟩

/-- C4 counterexample: with installed product `q` unknown to the server in
non-SCA mode, `load` hands back a snapshot that differs from the snapshot
it received — `q` has been appended to its `nonCompliantProducts` list. -/
theorem snapshot_mutated_counterexample :
    (load envDrift initState).2 ≠ some emptyStatus := by decide

/-- C4 (amended): `load` leaves every snapshot field except
`nonCompliantProducts` unchanged; `nonCompliantProducts` keeps its original
entries as a prefix and is extended by exactly the locally-installed product
ids missing from the server's compliant, partially-compliant and
non-compliant collections when not in SCA mode; in SCA mode, or when every
installed product is in one of those three collections, the snapshot is
returned fully unchanged. -/
theorem snapshot_mutation_shape (env : Env) (st : ServerStatus) (s : CMState)
    (hreg : env.registered = true) (hsnap : env.snapshot = some st) :
    ∃ extra,
      ((load env s).2 = some { st with
          nonCompliantProducts := st.nonCompliantProducts ++ extra })
      ∧ (∀ pid, pid ∈ extra ↔
          (env.is_sca = false
            ∧ pid ∈ env.installed.map Prod.fst
            ∧ dictHas pid st.compliantProducts = false
            ∧ dictHas pid st.partiallyCompliantProducts = false
            ∧ pid ∉ st.nonCompliantProducts))
      ∧ (env.is_sca = true → (load env s).2 = some st)
      ∧ ((∀ pid ∈ env.installed.map Prod.fst,
            dictHas pid st.compliantProducts = true
            ∨ dictHas pid st.partiallyCompliantProducts = true
            ∨ pid ∈ st.nonCompliantProducts) →
          (load env s).2 = some st) := by
  cases hsca : env.is_sca with
  | true =>
    refine ⟨[], ?_, ?_, fun _ => ?_, fun _ => ?_⟩
    · rw [load_eq_preScan env st s hreg hsnap, hsca]
      simp [unentitledPids]
    · intro pid
      simp
    · rw [load_eq_preScan env st s hreg hsnap, hsca]
      simp [unentitledPids]
    · rw [load_eq_preScan env st s hreg hsnap, hsca]
      simp [unentitledPids]
  | false =>
    obtain ⟨extra, heq, hmem⟩ := unentitledStep_fold_exact st
      (env.installed.map Prod.fst) st.nonCompliantProducts
    refine ⟨extra, ?_, ?_, fun hc => ?_, fun hall => ?_⟩
    · rw [load_eq_preScan env st s hreg hsnap, hsca]
      simp [unentitledPids, heq]
    · intro pid
      constructor
      · intro hx
        obtain ⟨hnb, hin, hcp, hpp⟩ := hmem pid hx
        exact ⟨rfl, hin, hcp, hpp, hnb⟩
      · rintro ⟨-, hin, hcp, hpp, hnb⟩
        have hres : pid ∈ (env.installed.map Prod.fst).foldl (unentitledStep st)
            st.nonCompliantProducts :=
          unentitledStep_fold_subset st _ _ pid (Or.inr ⟨hin, hcp, hpp⟩)
        rw [heq] at hres
        rcases List.mem_append.1 hres with h' | h'
        · exact absurd h' hnb
        · exact h'
    · simp at hc
    · have hextra_nil : extra = [] := by
        rcases hx : extra with _ | ⟨pid, rest⟩
        · rfl
        · exfalso
          obtain ⟨hnb, hin, hcp, hpp⟩ := hmem pid (by rw [hx]; exact List.mem_cons_self pid rest)
          rcases hall pid hin with h' | h' | h'
          · rw [hcp] at h'
            exact absurd h' (by simp)
          · rw [hpp] at h'
            exact absurd h' (by simp)
          · exact hnb h'
      rw [load_eq_preScan env st s hreg hsnap, hsca]
      rw [show unentitledPids false st env.installed = st.nonCompliantProducts from by
        simp [unentitledPids, heq, hextra_nil]]

/-- C4 witness: the amended statement on the concrete fixtures (one installed
product `q`, unknown to the otherwise empty server snapshot, non-SCA). -/
theorem snapshot_mutation_shape_witness :
    (envDrift.registered = true)
    ∧ ∃ extra,
        ((load envDrift initState).2 = some { emptyStatus with
            nonCompliantProducts := emptyStatus.nonCompliantProducts ++ extra })
        ∧ (∀ pid, pid ∈ extra ↔
            (envDrift.is_sca = false
              ∧ pid ∈ envDrift.installed.map Prod.fst
              ∧ dictHas pid emptyStatus.compliantProducts = false
              ∧ dictHas pid emptyStatus.partiallyCompliantProducts = false
              ∧ pid ∉ emptyStatus.nonCompliantProducts))
        ∧ (envDrift.is_sca = true → (load envDrift initState).2 = some emptyStatus)
        ∧ ((∀ pid ∈ envDrift.installed.map Prod.fst,
              dictHas pid emptyStatus.compliantProducts = true
              ∨ dictHas pid emptyStatus.partiallyCompliantProducts = true
              ∨ pid ∈ emptyStatus.nonCompliantProducts) →
            (load envDrift initState).2 = some emptyStatus) :=
  ⟨rfl, snapshot_mutation_shape envDrift emptyStatus initState rfl rfl⟩

/-- C5: `get_status` returns UNKNOWN when unregistered, and otherwise checks
the buckets in the order partially-valid, valid, future, expired, unentitled,
returning the matching product status for the first bucket holding the id and
UNKNOWN exactly when the id is in none of the five. -/
theorem get_status_cases (s : CMState) (pid : String) :
    (get_status false s pid = UNKNOWN)
    ∧ (get_status true s pid = PARTIALLY_SUBSCRIBED
        ↔ dictHas pid s.partially_valid_products = true)
    ∧ (get_status true s pid = SUBSCRIBED
        ↔ (dictHas pid s.partially_valid_products = false
            ∧ dictHas pid s.valid_products = true))
    ∧ (get_status true s pid = FUTURE_SUBSCRIBED
        ↔ (dictHas pid s.partially_valid_products = false
            ∧ dictHas pid s.valid_products = false
            ∧ dictHas pid s.future_products = true))
    ∧ (get_status true s pid = EXPIRED
        ↔ (dictHas pid s.partially_valid_products = false
            ∧ dictHas pid s.valid_products = false
            ∧ dictHas pid s.future_products = false
            ∧ dictHas pid s.expired_products = true))
    ∧ (get_status true s pid = NOT_SUBSCRIBED
        ↔ (dictHas pid s.partially_valid_products = false
            ∧ dictHas pid s.valid_products = false
            ∧ dictHas pid s.future_products = false
            ∧ dictHas pid s.expired_products = false
            ∧ dictHas pid s.unentitled_products = true))
    ∧ (get_status true s pid = UNKNOWN
        ↔ (dictHas pid s.partially_valid_products = false
            ∧ dictHas pid s.valid_products = false
            ∧ dictHas pid s.future_products = false
            ∧ dictHas pid s.expired_products = false
            ∧ dictHas pid s.unentitled_products = false)) := by
  unfold get_status
  split_ifs <;>
    simp_all [PARTIALLY_SUBSCRIBED, SUBSCRIBED, FUTURE_SUBSCRIBED, EXPIRED,
      NOT_SUBSCRIBED, UNKNOWN]

/-- C6: on a registered system with a snapshot, the derived system status is
the server's status label when present and non-empty; else INVALID when the
non-compliant product list is non-empty; else PARTIAL when the
partially-valid map, the partial-stacks map, or the reasons list is
non-empty; else UNKNOWN. -/
theorem derived_system_status (env : Env) (st : ServerStatus) (s : CMState)
    (hreg : env.registered = true) (hsnap : env.snapshot = some st) :
    (load env s).1.system_status =
      (if (truthyLabel st.status) then st.status.getD ""
       else if !st.nonCompliantProducts.isEmpty then INVALID
       else if !st.partiallyCompliantProducts.isEmpty || !st.partialStacks.isEmpty
           || !(st.reasons.getD []).isEmpty then PARTIAL
       else UNKNOWN) := by
  rw [load_eq_preScan env st s hreg hsnap]
  exact ((scan_onlyScanChanges env (preScanState env st)).2.2.2.2.2.2.2.1).trans rfl

/-- C6 witness: the statement on the concrete fixtures (server omits the
label; everything empty, so the derived status is UNKNOWN). -/
theorem derived_system_status_witness :
    (envCompliantUntil.registered = true)
    ∧ ((load envCompliantUntil initState).1.system_status = UNKNOWN) :=
  ⟨rfl, (derived_system_status envCompliantUntil
    { emptyStatus with compliantUntil := some 0 } initState rfl rfl).trans
    (by decide)⟩

/-- C7: with the server returning a snapshot and local inputs unchanged,
running `load` a second time reproduces the first result exactly (all
buckets, system status, `compliant_until`, valid certificates). -/
theorem load_idempotent (env : Env) (st : ServerStatus) (s : CMState)
    (hreg : env.registered = true) (hsnap : env.snapshot = some st) :
    (load env (load env s).1).1 = (load env s).1 := by
  have h1 := load_eq_preScan env st s hreg hsnap
  have h2 := load_eq_preScan env st (load env s).1 hreg hsnap
  rw [h2, h1]

/-- C7 witness: idempotence evaluated on the concrete fixtures. -/
theorem load_idempotent_witness :
    (envCompliantUntil.registered = true)
    ∧ ((load envCompliantUntil (load envCompliantUntil initState).1).1
        = (load envCompliantUntil initState).1) :=
  ⟨rfl, load_idempotent envCompliantUntil
    { emptyStatus with compliantUntil := some 0 } initState rfl rfl⟩

/-- C8: a notification pass invokes exactly the callbacks registered when it
starts, each exactly once, whatever the callbacks do to the live observer set
during the pass; the next pass invokes exactly the callbacks left registered
after the first, so a callback removed mid-pass is still invoked once in the
current pass and not in the next, and one added mid-pass waits for the next. -/
theorem notify_snapshot_semantics (effect : Nat → List Nat → List Nat)
    (cbs : List Nat) (h : cbs.Nodup) :
    (∀ c, ((notify effect cbs).2.count c) = (if c ∈ cbs then 1 else 0))
    ∧ ((notify effect (notify effect cbs).1).2 = (notify effect cbs).1) := by
  constructor
  · intro c
    unfold notify
    rw [runPass_log]
    split_ifs with hc
    · exact List.count_eq_one_of_mem h hc
    · exact List.count_eq_zero_of_not_mem hc
  · unfold notify
    rw [runPass_log]

/-- C8 witness: Scenario E — observers 1 and 2 registered, observer 1 removes
observer 2 during the pass; observer 2 is still invoked exactly once. -/
theorem notify_snapshot_semantics_witness :
    ([1, 2] : List Nat).Nodup
    ∧ ((notify removeSecondEffect [1, 2]).2.count 2 = (if 2 ∈ [1, 2] then 1 else 0))
    ∧ ((notify removeSecondEffect (notify removeSecondEffect [1, 2]).1).2
        = (notify removeSecondEffect [1, 2]).1) :=
  ⟨by decide, (notify_snapshot_semantics removeSecondEffect [1, 2] (by decide)).1 2,
    (notify_snapshot_semantics removeSecondEffect [1, 2] (by decide)).2⟩

/-- C9: the icon code is 1 exactly when the system status is invalid, else 4
exactly when it is partial, else 2 exactly when some currently-valid
certificate is expiring, else 0 (UNKNOWN therefore degrades to the valid
icon); the codes 3 and 5 never occur. -/
theorem get_status_for_icon_cases (s : CMState) :
    (get_status_for_icon s = RHSM_EXPIRED ↔ s.system_status = INVALID)
    ∧ (get_status_for_icon s = RHSM_PARTIALLY_VALID
        ↔ (s.system_status ≠ INVALID ∧ s.system_status = PARTIAL))
    ∧ (get_status_for_icon s = RHSM_WARNING
        ↔ (s.system_status ≠ INVALID ∧ s.system_status ≠ PARTIAL
            ∧ in_warning_period s = true))
    ∧ (get_status_for_icon s = RHSM_VALID
        ↔ (s.system_status ≠ INVALID ∧ s.system_status ≠ PARTIAL
            ∧ in_warning_period s = false))
    ∧ (in_warning_period s = true
        ↔ ∃ c ∈ s.valid_entitlement_certs, c.expiring = true)
    ∧ (get_status_for_icon s ≠ RHN_CLASSIC
        ∧ get_status_for_icon s ≠ RHSM_REGISTRATION_REQUIRED) := by
  unfold get_status_for_icon
  constructor
  · split_ifs <;> simp_all [INVALID, RHSM_EXPIRED, RHSM_PARTIALLY_VALID,
      RHSM_WARNING, RHSM_VALID]
  constructor
  · split_ifs <;> simp_all [INVALID, PARTIAL, RHSM_EXPIRED, RHSM_PARTIALLY_VALID,
      RHSM_WARNING, RHSM_VALID]
  constructor
  · split_ifs <;> simp_all [INVALID, PARTIAL, RHSM_EXPIRED, RHSM_PARTIALLY_VALID,
      RHSM_WARNING, RHSM_VALID]
  constructor
  · split_ifs <;> simp_all [INVALID, PARTIAL, RHSM_EXPIRED, RHSM_PARTIALLY_VALID,
      RHSM_WARNING, RHSM_VALID]
  constructor
  · simp [in_warning_period, List.any_eq_true]
  · split_ifs <;> simp_all [RHSM_EXPIRED, RHSM_PARTIALLY_VALID, RHSM_WARNING,
      RHSM_VALID, RHN_CLASSIC, RHSM_REGISTRATION_REQUIRED]

/-- C10: the sorter realizes the spec description — iterating certificates in
input order, a certificate with no (truthy) stacking key forms its own
singleton group at its position; the first certificate of each new key opens
a group named from it that carries every certificate of that key in
encounter order; later certificates of a seen key open no group; groups
stand in first-seen order. -/
theorem stacking_group_sorter_spec (ctx : SorterCtx) (certs : List ECert) :
    sorterGroups ctx certs = specGroups ctx certs := by
  have h := sorter_fold_spec ctx certs [] (by simp)
  simpa [sorterGroups, specGroups, augmentGroups] using h

end CertSorter
